import Mathlib

/-!
Verification of the AllJoyn security-manager claiming subsystem and two
library functions (`ArgDef` equality in the Java binding, `RecvWithFds` in
the Windows socket layer).

The claiming orchestration code itself (Security Manager facade, Claim
Arbitrator, Application Monitor implementation) is not present in the
excerpt — only its headers and its robustness tests are — so the claiming
model below is built from the design document (§3–§7): states, the
Security Info Store, the `ClaimLease` mutual-exclusion token, and the
`claim` operation split into its lease-acquisition phase and its
remote-provisioning completion phase.  `ArgDef` and `RecvWithFds` are
embedded directly from their sources.
-/

namespace SecMgr

/-- Modelled from the spec: the `applicationState` enumeration of a
`SecurityInfo` record (§3). -/
inductive ApplicationState where
  | CLAIMABLE
  | CLAIMED
  | NEED_UPDATE
  | NOT_CLAIMABLE
  | UNKNOWN
deriving DecidableEq, Repr

/-- Modelled from the spec: the per-application `SecurityInfo` record (§3):
current transport endpoint (bus name), public key, application state, claim
capabilities bitset and last-seen timestamp.  Matches the value type of the
`applications` map in `ApplicationMonitor.h`. -/
structure SecurityInfo where
  busName : String
  publicKey : String
  applicationState : ApplicationState
  claimCapabilities : Nat
  lastSeen : Nat
deriving DecidableEq, Repr

/-- Modelled from the spec: the `ClaimError` taxonomy (§7). -/
inductive ClaimError where
  | InvalidArgument
  | AlreadyClaimed
  | ClaimInProgress
  | PeerUnreachable
  | NetworkError
  | RemoteRejected
  | Timeout
  | IncompleteIdentity
deriving DecidableEq, Repr

/-- Modelled from the spec: the shared mutable state of the security
manager (§5): the Security Info Store and the set of live `ClaimLease`
keys (public keys of in-flight claim attempts). -/
structure SecMgrState where
  store : List SecurityInfo
  leases : List String
deriving DecidableEq, Repr

/-- The initial state: no tracked applications, no live leases. -/
def initState : SecMgrState := ⟨[], []⟩

/-- Look up the tracked application with the given public key (§4.4 step 2:
targets are resolved by public key, not by endpoint name). -/
def findByKey (store : List SecurityInfo) (pk : String) : Option SecurityInfo :=
  store.find? (fun si => si.publicKey == pk)

/-- Modelled from the spec: outcome of the remote provisioning exchange
(§4.4 step 4) as seen by the arbitrator.  On failure the Boolean records
whether the device partially applied changes, in which case the observed
state is `NEED_UPDATE` rather than `CLAIMABLE` (§7). -/
inductive RemoteOutcome where
  | ok
  | netError (partiallyApplied : Bool)
  | remoteRejected (partiallyApplied : Bool)
  | timeout (partiallyApplied : Bool)
deriving DecidableEq, Repr

/-- Set the state of every store entry bearing the given public key. -/
def setKeyState (store : List SecurityInfo) (pk : String) (s : ApplicationState) :
    List SecurityInfo :=
  store.map (fun si => if si.publicKey == pk then { si with applicationState := s } else si)

/-- Modelled from the spec: best-known state recorded after a failed
provisioning exchange (§7) — `NEED_UPDATE` if the device partially applied
changes, `CLAIMABLE` otherwise; never `CLAIMED`. -/
def observedState (partiallyApplied : Bool) : ApplicationState :=
  if partiallyApplied then .NEED_UPDATE else .CLAIMABLE

/-- Modelled from the spec: the lease-acquisition phase of `claim`
(§4.4 steps 1–3).  Validates the public key (an empty or malformed key is
`InvalidArgument`; the endpoint name in the request is ignored and the live
entry is re-resolved by key), checks the tracked state (`AlreadyClaimed`,
`PeerUnreachable`), and acquires the `ClaimLease` (`ClaimInProgress` when a
lease for the key is already live).  Returns the re-resolved record on
success. -/
def claimStart (wf : String → Bool) (req : SecurityInfo) (st : SecMgrState) :
    Except ClaimError SecurityInfo × SecMgrState :=
  if req.publicKey = "" then (.error .InvalidArgument, st)
  else if !wf req.publicKey then (.error .InvalidArgument, st)
  else
    match findByKey st.store req.publicKey with
    | none => (.error .PeerUnreachable, st)
    | some si =>
      if si.applicationState = .CLAIMED then (.error .AlreadyClaimed, st)
      else if req.publicKey ∈ st.leases then (.error .ClaimInProgress, st)
      else (.ok si, { st with leases := req.publicKey :: st.leases })

/-- Modelled from the spec: the state the target's store entry is moved to
when the remote exchange finishes (§4.4 step 5, §7): `CLAIMED` on success,
the best-known observed state on failure. -/
def finishTargetState : RemoteOutcome → ApplicationState
  | .ok => .CLAIMED
  | .netError p => observedState p
  | .remoteRejected p => observedState p
  | .timeout p => observedState p

/-- Modelled from the spec: the state effect of finishing a claim attempt
for key `pk` (§4.4 steps 4–6): on success the store entry moves to
`CLAIMED`; on failure the best-known observed state is recorded; the lease
is released on every path. -/
def finishState (pk : String) (out : RemoteOutcome) (st : SecMgrState) : SecMgrState :=
  ⟨setKeyState st.store pk (finishTargetState out), st.leases.erase pk⟩

/-- Modelled from the spec: the completion phase of `claim` for the
lease-holder (§4.4 steps 4–6): maps the remote outcome to the terminal
result and applies `finishState`. -/
def claimFinish (si : SecurityInfo) (out : RemoteOutcome) (st : SecMgrState) :
    Except ClaimError SecurityInfo × SecMgrState :=
  let r : Except ClaimError SecurityInfo := match out with
    | .ok => .ok { si with applicationState := .CLAIMED }
    | .netError _ => .error .NetworkError
    | .remoteRejected _ => .error .RemoteRejected
    | .timeout _ => .error .Timeout
  (r, finishState si.publicKey out st)

/-- Result of a complete `claim` invocation: the terminal result returned
to the caller, the resulting shared state, and whether the remote
provisioning exchange was entered at all. -/
structure ClaimResult where
  result : Except ClaimError SecurityInfo
  state : SecMgrState
  remoteCalled : Bool

/-- Modelled from the spec: a complete sequential `claim` invocation
(§4.4): the acquisition phase followed, only on success, by the remote
exchange and the completion phase.  Validation and pre-condition failures
return synchronously with no side effects and no remote call (§7). -/
def claim (wf : String → Bool) (req : SecurityInfo) (out : RemoteOutcome)
    (st : SecMgrState) : ClaimResult :=
  match claimStart wf req st with
  | (.error e, st1) => ⟨.error e, st1, false⟩
  | (.ok si, st1) =>
    let fr := claimFinish si out st1
    ⟨fr.1, fr.2, true⟩

/-- Modelled from the spec: the events that mutate the shared state (§4.2,
§4.4): the two phases of a claim attempt, and the Application Monitor's
`found` / `lost` / state-changed-advertisement handlers. -/
inductive MonitorEvent where
  | claimStartEv (req : SecurityInfo)
  | claimFinishEv (pk : String) (out : RemoteOutcome)
  | found (busName : String)
  | lost (busName : String)
  | stateChanged (si : SecurityInfo)

/-- Modelled from the spec: the fresh record created by `found` (§4.2):
state `UNKNOWN`, public key empty until first contact. -/
def newApp (busName : String) : SecurityInfo :=
  ⟨busName, "", .UNKNOWN, 0, 0⟩

/-- Modelled from the spec: a state-changed advertisement updates a tracked
endpoint's record in place; for an untracked endpoint it acts as an
implicit `found` followed by the update (§4.2). -/
def applyStateChanged (store : List SecurityInfo) (si : SecurityInfo) :
    List SecurityInfo :=
  if store.any (fun e => e.busName == si.busName) then
    store.map (fun e => if e.busName == si.busName then si else e)
  else si :: store

/-- Modelled from the spec: one step of the shared-state transition system
(§4.2, §4.4, §5). -/
def step (wf : String → Bool) (st : SecMgrState) : MonitorEvent → SecMgrState
  | .claimStartEv req => (claimStart wf req st).2
  | .claimFinishEv pk out => finishState pk out st
  | .found bn =>
    if st.store.any (fun e => e.busName == bn) then st
    else { st with store := newApp bn :: st.store }
  | .lost bn => { st with store := st.store.filter (fun e => !(e.busName == bn)) }
  | .stateChanged si => { st with store := applyStateChanged st.store si }

/-- Run a sequence of events from the initial (empty) state. -/
def runEvents (wf : String → Bool) (evs : List MonitorEvent) : SecMgrState :=
  evs.foldl (step wf) initState

end SecMgr

namespace JavaDefs

/-- Java's 32-bit `String.hashCode`, as an unsigned residue:
`h = 31*h + c` over the characters, reduced modulo 2^32. -/
def javaStringHash (s : String) : Nat :=
  s.data.foldl (fun h c => (31 * h + c.toNat) % 4294967296) 0

/-- `ArgDef` from `org/alljoyn/bus/defs/ArgDef.java`: an argument
definition with a name (from `BaseDef`), a type signature and a
direction. -/
structure ArgDef where
  name : String
  type : String
  direction : String
deriving DecidableEq, Repr

/-- `ArgDef.equals` (ArgDef.java lines 97–106) restricted to two `ArgDef`
receivers: compares `name` and `direction`; the `type` field does not
participate. -/
def ArgDef.equals (a b : ArgDef) : Bool :=
  a.name == b.name && a.direction == b.direction

/-- `ArgDef.hashCode` (ArgDef.java lines 108–113):
`31 * name.hashCode() + direction.hashCode()` as a 32-bit value. -/
def ArgDef.hashCode (a : ArgDef) : Nat :=
  (31 * javaStringHash a.name + javaStringHash a.direction) % 4294967296

end JavaDefs

namespace WinSock

/-- Status codes returned on the paths of `RecvWithFds`
(`common/os/windows/Socket.cc`). -/
inductive QStatus where
  | ER_OK
  | ER_BAD_ARG_5
  | ER_BAD_ARG_6
  | ER_OS_ERROR
  | ER_TIMEOUT
deriving DecidableEq, Repr

/-- Environment of one `RecvWithFds` call: the results of the OS calls it
makes, in order.  `ioctlMarked` is the `SIOCATMARK` result (`none` =
`SOCKET_ERROR`); `oobByte` is the `MSG_OOB` one-byte read of the
descriptor count; `fdReads` gives, per descriptor, `none` for a failed
inband read and `some fd` for a successfully rebuilt handle; `finalRecv`
is the final inband `Recv`. -/
structure RecvEnv where
  ioctlMarked : Option Bool
  oobByte : Option Nat
  fdReads : List (Option Nat)
  finalRecv : Option Nat

/-- The descriptor-reading loop of `RecvWithFds` (Socket.cc lines
707–745): reads `n` descriptors in order, appending each rebuilt handle to
the output list, and stops with an error status as soon as a read fails;
handles already written stay written. -/
def readFdLoop : Nat → List (Option Nat) → QStatus × List Nat
  | 0, _ => (.ER_OK, [])
  | _ + 1, [] => (.ER_OS_ERROR, [])
  | _ + 1, none :: _ => (.ER_OS_ERROR, [])
  | n + 1, some fd :: rest =>
    let r := readFdLoop n rest
    (r.1, fd :: r.2)

/-- `RecvWithFds` (Socket.cc lines 661–751), over an abstract OS
environment.  `socketMaxFds` stands for `SOCKET_MAX_FILE_DESCRIPTORS`
(defined outside the excerpt).  The returned triple is the status, the
descriptors written to `fdList`, and whether the "Too many handles" branch
at line 699 — whose condition is `recvdFds > recvdFds` in the source — was
taken. -/
def RecvWithFds (socketMaxFds : Nat) (env : RecvEnv) (fdListNull : Bool)
    (maxFds : Nat) : QStatus × List Nat × Bool :=
  if fdListNull then (.ER_BAD_ARG_5, [], false)
  else if maxFds = 0 then (.ER_BAD_ARG_6, [], false)
  else
    let _maxFds := min maxFds socketMaxFds
    match env.ioctlMarked with
    | none => (.ER_OS_ERROR, [], false)
    | some marked =>
      if marked then
        match env.finalRecv with
        | none => (.ER_OS_ERROR, [], false)
        | some _ => (.ER_OK, [], false)
      else
        match env.oobByte with
        | none => (.ER_OS_ERROR, [], false)
        | some recvdFds =>
          if recvdFds > recvdFds then (.ER_OS_ERROR, [], true)
          else
            match readFdLoop recvdFds env.fdReads with
            | (.ER_OK, fds) =>
              match env.finalRecv with
              | none => (.ER_OS_ERROR, fds, false)
              | some _ => (.ER_OK, fds, false)
            | (s, fds) => (s, fds, false)

end WinSock

namespace SecMgr

/-- Sample well-formedness predicate used by the concrete witnesses. -/
def accepting : String → Bool := fun _ => true

/-- Sample tracked application used by the concrete witnesses. -/
def sampleApp : SecurityInfo := ⟨"bus0", "k0", .CLAIMABLE, 3, 7⟩

/-- Sample claim request carrying a stale endpoint name. -/
def staleReq : SecurityInfo := ⟨"My Rubbish BusName", "k0", .CLAIMABLE, 3, 7⟩

/-- Sample shared state tracking one claimable application. -/
def sampleSt : SecMgrState := ⟨[sampleApp], []⟩

/-- Sample event trace: an application is discovered, advertises its state,
and a claim attempt acquires the lease for its key. -/
def sampleEvents : List MonitorEvent :=
  [.found "bus0", .stateChanged sampleApp, .claimStartEv sampleApp]

/-- Sample state whose only tracked application is already claimed. -/
def claimedSt : SecMgrState := ⟨[⟨"bus0", "k0", .CLAIMED, 3, 7⟩], []⟩

lemma claimStart_cases (wf : String → Bool) (req : SecurityInfo) (st : SecMgrState) :
    (∃ si, findByKey st.store req.publicKey = some si ∧
      claimStart wf req st = (.ok si, { st with leases := req.publicKey :: st.leases }) ∧
      req.publicKey ∉ st.leases ∧ req.publicKey ≠ "" ∧ wf req.publicKey = true ∧
      si.applicationState ≠ .CLAIMED) ∨
    (∃ e, claimStart wf req st = (.error e, st)) := by
  unfold claimStart
  split
  · exact Or.inr ⟨_, rfl⟩
  rename_i hne
  split
  · exact Or.inr ⟨_, rfl⟩
  rename_i hwf
  split
  · exact Or.inr ⟨_, rfl⟩
  rename_i si hfind
  split
  · exact Or.inr ⟨_, rfl⟩
  rename_i hcl
  split
  · exact Or.inr ⟨_, rfl⟩
  rename_i hmem
  exact Or.inl ⟨si, hfind, rfl, hmem, hne, by simpa using hwf, hcl⟩

lemma claimStart_of_mem_leases (wf : String → Bool) (req : SecurityInfo)
    (st : SecMgrState) (h : req.publicKey ∈ st.leases) :
    (claimStart wf req st).2 = st ∧ ∃ e, (claimStart wf req st).1 = .error e := by
  rcases claimStart_cases wf req st with ⟨si, _, _, hmem, _⟩ | ⟨e, heq⟩
  · exact absurd h hmem
  · rw [heq]
    exact ⟨rfl, e, rfl⟩

lemma claimStart_error_state (wf : String → Bool) (req : SecurityInfo)
    (st : SecMgrState) (e : ClaimError)
    (h : (claimStart wf req st).1 = .error e) : (claimStart wf req st).2 = st := by
  rcases claimStart_cases wf req st with ⟨si, _, heq, _⟩ | ⟨e', heq⟩
  · rw [heq] at h
    simp at h
  · rw [heq]

lemma claimStart_ok (wf : String → Bool) (req : SecurityInfo) (st : SecMgrState)
    (si : SecurityInfo) (st1 : SecMgrState)
    (h : claimStart wf req st = (.ok si, st1)) :
    findByKey st.store req.publicKey = some si ∧
    si.publicKey = req.publicKey ∧
    req.publicKey ∉ st.leases ∧
    st1 = { st with leases := req.publicKey :: st.leases } ∧
    req.publicKey ≠ "" ∧ wf req.publicKey = true ∧
    si.applicationState ≠ .CLAIMED := by
  rcases claimStart_cases wf req st with ⟨si0, hfind, heq, hmem, hne, hwf, hcl⟩ | ⟨e, heq⟩
  · rw [heq] at h
    simp only [Prod.mk.injEq, Except.ok.injEq] at h
    obtain ⟨rfl, h2⟩ := h
    have hkey : si0.publicKey = req.publicKey := by
      simpa [beq_iff_eq] using List.find?_some hfind
    exact ⟨hfind, hkey, hmem, h2.symm, hne, hwf, hcl⟩
  · rw [heq] at h
    simp at h

lemma leases_nodup_step (wf : String → Bool) (st : SecMgrState) (ev : MonitorEvent)
    (h : st.leases.Nodup) : (step wf st ev).leases.Nodup := by
  cases ev with
  | claimStartEv req =>
    show (claimStart wf req st).2.leases.Nodup
    rcases claimStart_cases wf req st with ⟨si, _, heq, hmem, _⟩ | ⟨e, heq⟩
    · rw [heq]
      exact List.nodup_cons.mpr ⟨hmem, h⟩
    · rw [heq]
      exact h
  | claimFinishEv pk out => exact h.erase pk
  | found bn =>
    show ((if st.store.any (fun e => e.busName == bn) then st
      else { st with store := newApp bn :: st.store })).leases.Nodup
    split
    · exact h
    · exact h
  | lost bn => exact h
  | stateChanged si => exact h

lemma runEvents_leases_nodup (wf : String → Bool) (evs : List MonitorEvent) :
    (runEvents wf evs).leases.Nodup := by
  suffices hgen : ∀ st : SecMgrState, st.leases.Nodup →
      (evs.foldl (step wf) st).leases.Nodup from
    hgen initState List.nodup_nil
  induction evs with
  | nil => exact fun st h => h
  | cons ev rest ih =>
    intro st h
    exact ih (step wf st ev) (leases_nodup_step wf st ev h)

lemma setKeyState_busNames (store : List SecurityInfo) (pk : String)
    (s : ApplicationState) :
    (setKeyState store pk s).map (fun si => si.busName) =
      store.map (fun si => si.busName) := by
  unfold setKeyState
  rw [List.map_map]
  congr 1
  funext si
  by_cases hb : si.publicKey == pk <;> simp [Function.comp, hb]

lemma claimStart_store (wf : String → Bool) (req : SecurityInfo) (st : SecMgrState) :
    (claimStart wf req st).2.store = st.store := by
  rcases claimStart_cases wf req st with ⟨si, _, heq, _⟩ | ⟨e, heq⟩ <;> rw [heq]

lemma findByKey_setKeyState (store : List SecurityInfo) (pk : String)
    (s : ApplicationState) :
    findByKey (setKeyState store pk s) pk =
      (findByKey store pk).map (fun si => { si with applicationState := s }) := by
  induction store with
  | nil => rfl
  | cons a l ih =>
    unfold findByKey setKeyState at *
    simp only [List.map_cons]
    by_cases hb : (a.publicKey == pk) = true
    · rw [if_pos hb]
      have h1 : List.find? (fun si => si.publicKey == pk)
          (({ a with applicationState := s } : SecurityInfo) ::
            l.map (fun si => if si.publicKey == pk
              then { si with applicationState := s } else si)) =
          some { a with applicationState := s } :=
        List.find?_cons_of_pos _ (by simpa using hb)
      have h2 : List.find? (fun si => si.publicKey == pk) (a :: l) = some a :=
        List.find?_cons_of_pos _ hb
      rw [h1, h2]
      rfl
    · rw [if_neg hb]
      have h1 : List.find? (fun si => si.publicKey == pk)
          (a :: l.map (fun si => if si.publicKey == pk
            then { si with applicationState := s } else si)) =
          List.find? (fun si => si.publicKey == pk)
            (l.map (fun si => if si.publicKey == pk
              then { si with applicationState := s } else si)) :=
        List.find?_cons_of_neg _ hb
      have h2 : List.find? (fun si => si.publicKey == pk) (a :: l) =
          List.find? (fun si => si.publicKey == pk) l :=
        List.find?_cons_of_neg _ hb
      rw [h1, h2]
      exact ih

lemma store_busNames_nodup_step (wf : String → Bool) (st : SecMgrState)
    (ev : MonitorEvent) (h : (st.store.map (fun si => si.busName)).Nodup) :
    ((step wf st ev).store.map (fun si => si.busName)).Nodup := by
  cases ev with
  | claimStartEv req =>
    show ((claimStart wf req st).2.store.map (fun si => si.busName)).Nodup
    rw [claimStart_store]
    exact h
  | claimFinishEv pk out =>
    show ((setKeyState st.store pk (finishTargetState out)).map
      (fun si => si.busName)).Nodup
    rw [setKeyState_busNames]
    exact h
  | found bn =>
    show ((if st.store.any (fun e => e.busName == bn) then st
      else { st with store := newApp bn :: st.store }).store.map
        (fun si => si.busName)).Nodup
    split
    · exact h
    · rename_i hany
      simp only [List.map_cons]
      refine List.nodup_cons.mpr ⟨?_, h⟩
      intro hmem
      apply hany
      rw [List.mem_map] at hmem
      obtain ⟨si, hsi, hbn⟩ := hmem
      exact List.any_eq_true.mpr ⟨si, hsi, beq_iff_eq.mpr hbn⟩
  | lost bn =>
    show (((st.store.filter (fun e => !(e.busName == bn))).map
      (fun si => si.busName)).Nodup)
    exact h.sublist ((List.filter_sublist _).map _)
  | stateChanged si =>
    show ((applyStateChanged st.store si).map (fun si => si.busName)).Nodup
    unfold applyStateChanged
    split
    · rw [List.map_map]
      have hfg : ((fun e => e.busName) ∘
          (fun e => if e.busName == si.busName then si else e)) =
          fun e : SecurityInfo => e.busName := by
        funext e
        by_cases hb : (e.busName == si.busName) = true
        · show (if e.busName == si.busName then si else e).busName = e.busName
          rw [if_pos hb]
          exact (beq_iff_eq.mp hb).symm
        · show (if e.busName == si.busName then si else e).busName = e.busName
          rw [if_neg hb]
      rw [hfg]
      exact h
    · rename_i hany
      simp only [List.map_cons]
      refine List.nodup_cons.mpr ⟨?_, h⟩
      intro hmem
      apply hany
      rw [List.mem_map] at hmem
      obtain ⟨e, he, hbn⟩ := hmem
      exact List.any_eq_true.mpr ⟨e, he, beq_iff_eq.mpr hbn⟩

lemma claimStart_inProgress_mem (wf : String → Bool) (req : SecurityInfo)
    (st : SecMgrState)
    (h : (claimStart wf req st).1 = .error .ClaimInProgress) :
    req.publicKey ∈ st.leases := by
  unfold claimStart at h
  split at h
  · simp at h
  split at h
  · simp at h
  split at h
  · simp at h
  split at h
  · simp at h
  split at h
  · rename_i hmem
    exact hmem
  · simp at h

lemma claim_of_claimed (wf : String → Bool) (req : SecurityInfo) (st : SecMgrState)
    (si : SecurityInfo) (out : RemoteOutcome)
    (hne : req.publicKey ≠ "") (hwf : wf req.publicKey = true)
    (hfound : findByKey st.store req.publicKey = some si)
    (hcl : si.applicationState = .CLAIMED) :
    claim wf req out st = ⟨.error .AlreadyClaimed, st, false⟩ := by
  unfold claim claimStart
  rw [if_neg hne, hwf]
  simp only [Bool.not_true, Bool.false_eq_true, if_false, hfound, if_pos hcl]

lemma finishTargetState_ne_claimed (out : RemoteOutcome) (h : out ≠ .ok) :
    finishTargetState out ≠ .CLAIMED := by
  cases out with
  | ok => exact absurd rfl h
  | netError p => cases p <;> simp [finishTargetState, observedState]
  | remoteRejected p => cases p <;> simp [finishTargetState, observedState]
  | timeout p => cases p <;> simp [finishTargetState, observedState]

lemma claim_not_inProgress (wf : String → Bool) (req : SecurityInfo)
    (out : RemoteOutcome) (st : SecMgrState) (h : req.publicKey ∉ st.leases) :
    (claim wf req out st).result ≠ .error .ClaimInProgress := by
  intro hres
  unfold claim at hres
  rcases hcs : claimStart wf req st with ⟨r, st1⟩
  rw [hcs] at hres
  cases r with
  | error e =>
    have he : e = .ClaimInProgress := by simpa using hres
    subst he
    exact h (claimStart_inProgress_mem wf req st (by rw [hcs]))
  | ok si =>
    cases out <;> simp [claimFinish] at hres

end SecMgr

namespace WinSock

lemma readFdLoop_all_some (n : Nat) (reads : List (Option Nat))
    (hn : n ≤ reads.length) (h : ∀ r ∈ reads, r.isSome) :
    (readFdLoop n reads).1 = .ER_OK ∧ (readFdLoop n reads).2.length = n := by
  induction n generalizing reads with
  | zero => exact ⟨rfl, rfl⟩
  | succ m ih =>
    cases reads with
    | nil => simp at hn
    | cons r rest =>
      cases r with
      | none =>
        have := h none (by simp)
        simp at this
      | some fd =>
        have hrec := ih rest (by simpa using hn)
          (fun x hx => h x (List.mem_cons_of_mem _ hx))
        exact ⟨hrec.1, by simpa [readFdLoop] using hrec.2⟩

end WinSock

namespace SecMgr

/-- Claim C1: for concurrent claim attempts on the same public key, at
most one invocation can win: along any interleaving of claim and monitor
events, at most one live `ClaimLease` exists for any key at any instant,
and a claim attempt arriving while a lease for its key is live fails with
an error and leaves the shared state unchanged. -/
theorem claim_lease_mutual_exclusion (wf : String → Bool)
    (evs : List MonitorEvent) (req : SecurityInfo) :
    ((runEvents wf evs).leases.count req.publicKey ≤ 1) ∧
    (req.publicKey ∈ (runEvents wf evs).leases →
      (claimStart wf req (runEvents wf evs)).2 = runEvents wf evs ∧
      ∃ e, (claimStart wf req (runEvents wf evs)).1 = .error e) := by
  refine ⟨?_, fun h => claimStart_of_mem_leases wf req _ h⟩
  exact List.nodup_iff_count_le_one.mp (runEvents_leases_nodup wf evs) _

/-- Concrete instantiation of `claim_lease_mutual_exclusion` on the sample
trace, where the lease for key `"k0"` is live. -/
theorem claim_lease_mutual_exclusion_witness :
    ((runEvents accepting sampleEvents).leases.count "k0" ≤ 1) ∧
    ((claimStart accepting sampleApp (runEvents accepting sampleEvents)).2 =
        runEvents accepting sampleEvents ∧
      ∃ e, (claimStart accepting sampleApp
        (runEvents accepting sampleEvents)).1 = .error e) := by
  have h := claim_lease_mutual_exclusion accepting sampleEvents sampleApp
  exact ⟨h.1, h.2 (by decide)⟩

/-- Claim C2: a claim whose public key is empty or malformed returns
`InvalidArgument` with no side effects: the store and lease set are
unchanged and the remote exchange is never entered. -/
theorem claim_invalid_key_rejected (wf : String → Bool) (req : SecurityInfo)
    (out : RemoteOutcome) (st : SecMgrState)
    (h : req.publicKey = "" ∨ wf req.publicKey = false) :
    claim wf req out st = ⟨.error .InvalidArgument, st, false⟩ := by
  unfold claim claimStart
  rcases h with h | h
  · rw [if_pos h]
  · rcases eq_or_ne req.publicKey "" with h0 | h0
    · rw [if_pos h0]
    · rw [if_neg h0, h]
      rfl

/-- Concrete instantiation of `claim_invalid_key_rejected` with an empty
public key. -/
theorem claim_invalid_key_rejected_witness :
    claim accepting ⟨"bus0", "", .CLAIMABLE, 0, 0⟩ .ok sampleSt =
      ⟨.error .InvalidArgument, sampleSt, false⟩ :=
  claim_invalid_key_rejected accepting ⟨"bus0", "", .CLAIMABLE, 0, 0⟩ .ok sampleSt
    (Or.inl rfl)

/-- Claim C3: a claim carrying the correct public key of a tracked,
not-yet-claimed application succeeds regardless of the endpoint name in
the request: the result of `claim` is identical for every bus name (the
live entry is re-resolved from the store by public key), and with a
successful remote exchange the call returns the re-resolved store entry
promoted to `CLAIMED`. -/
theorem claim_stale_endpoint_tolerated (wf : String → Bool) (req : SecurityInfo)
    (out : RemoteOutcome) (st : SecMgrState) (si : SecurityInfo)
    (hne : req.publicKey ≠ "") (hwf : wf req.publicKey = true)
    (hfound : findByKey st.store req.publicKey = some si)
    (hnc : si.applicationState ≠ .CLAIMED)
    (hnl : req.publicKey ∉ st.leases) :
    (∀ bn, claim wf { req with busName := bn } out st = claim wf req out st) ∧
    (claim wf req .ok st).result = .ok { si with applicationState := .CLAIMED } := by
  constructor
  · intro bn
    rfl
  · unfold claim claimStart
    rw [if_neg hne, hwf]
    simp only [Bool.not_true, Bool.false_eq_true, if_false, hfound,
      if_neg hnc, if_neg hnl]
    rfl

/-- Concrete instantiation of `claim_stale_endpoint_tolerated`: a request
bearing the rubbish bus name behaves exactly like the accurate one and the
claim succeeds. -/
theorem claim_stale_endpoint_tolerated_witness :
    (claim accepting { staleReq with busName := "My Rubbish BusName" } .ok sampleSt =
      claim accepting staleReq .ok sampleSt) ∧
    (claim accepting staleReq .ok sampleSt).result =
      .ok { sampleApp with applicationState := .CLAIMED } := by
  have h := claim_stale_endpoint_tolerated accepting staleReq .ok sampleSt sampleApp
    (by decide) rfl rfl (by decide) (by decide)
  exact ⟨h.1 "My Rubbish BusName", h.2⟩

/-- Claim C4: a target whose tracked state is `CLAIMED` is rejected
immediately with `AlreadyClaimed` — state unchanged, no lease taken, no
remote call — and in particular a second sequential claim on a target that
was just claimed successfully returns `AlreadyClaimed`. -/
theorem claim_already_claimed_rejected (wf : String → Bool) (req : SecurityInfo)
    (out out2 : RemoteOutcome) (st : SecMgrState) :
    (∀ si, req.publicKey ≠ "" → wf req.publicKey = true →
      findByKey st.store req.publicKey = some si →
      si.applicationState = .CLAIMED →
      claim wf req out st = ⟨.error .AlreadyClaimed, st, false⟩) ∧
    (∀ si, (claim wf req out st).result = .ok si →
      claim wf req out2 (claim wf req out st).state =
        ⟨.error .AlreadyClaimed, (claim wf req out st).state, false⟩) := by
  constructor
  · intro si hne hwf hfound hcl
    exact claim_of_claimed wf req st si out hne hwf hfound hcl
  · intro si hok
    rcases hcs : claimStart wf req st with ⟨r, st1⟩
    cases r with
    | error e =>
      exfalso
      unfold claim at hok
      rw [hcs] at hok
      simp at hok
    | ok si0 =>
      obtain ⟨hfind, hkey, hmem, hst1, hne, hwf, hclm⟩ :=
        claimStart_ok wf req st si0 st1 hcs
      subst hst1
      have hout : out = .ok := by
        unfold claim at hok
        rw [hcs] at hok
        cases out
        · rfl
        all_goals simp [claimFinish] at hok
      subst hout
      have hss : (claim wf req .ok st).state.store =
          setKeyState st.store req.publicKey .CLAIMED := by
        unfold claim
        rw [hcs]
        show setKeyState st.store si0.publicKey .CLAIMED = _
        rw [hkey]
      have hfind2 : findByKey (claim wf req .ok st).state.store req.publicKey =
          some { si0 with applicationState := .CLAIMED } := by
        rw [hss, findByKey_setKeyState, hfind]
        rfl
      exact claim_of_claimed wf req (claim wf req .ok st).state
        { si0 with applicationState := .CLAIMED } out2 hne hwf hfind2 rfl

/-- Concrete instantiation of `claim_already_claimed_rejected`: claiming
the sample application twice returns success and then `AlreadyClaimed`. -/
theorem claim_already_claimed_rejected_witness :
    claim accepting sampleApp .ok (claim accepting sampleApp .ok sampleSt).state =
      ⟨.error .AlreadyClaimed, (claim accepting sampleApp .ok sampleSt).state,
        false⟩ :=
  (claim_already_claimed_rejected accepting sampleApp .ok .ok sampleSt).2
    { sampleApp with applicationState := .CLAIMED } rfl

/-- Claim C5: a claim whose (well-formed) target public key is absent from
the Security Info Store — the peer disappeared or was torn down — returns
`PeerUnreachable` with no side effects and no remote call. -/
theorem claim_dead_peer_rejected (wf : String → Bool) (req : SecurityInfo)
    (out : RemoteOutcome) (st : SecMgrState)
    (hne : req.publicKey ≠ "") (hwf : wf req.publicKey = true)
    (habs : findByKey st.store req.publicKey = none) :
    claim wf req out st = ⟨.error .PeerUnreachable, st, false⟩ := by
  unfold claim claimStart
  rw [if_neg hne, hwf]
  simp only [Bool.not_true, Bool.false_eq_true, if_false, habs]

/-- Concrete instantiation of `claim_dead_peer_rejected` on the empty
store. -/
theorem claim_dead_peer_rejected_witness :
    claim accepting sampleApp .ok initState =
      ⟨.error .PeerUnreachable, initState, false⟩ :=
  claim_dead_peer_rejected accepting sampleApp .ok initState (by decide) rfl rfl

end SecMgr

namespace SecMgr

/-- Counterexample to claim C6 as stated: a claim on a target that is
already `CLAIMED` returns an error (`AlreadyClaimed`), yet the store entry
for that target is (still) in state `CLAIMED` after the call — so "if
`claim()` returns any error, the entry is never left in state `CLAIMED`"
fails for the `AlreadyClaimed` error path. -/
theorem claim_no_ghost_claims_cex :
    (claim accepting sampleApp .ok claimedSt).result = .error .AlreadyClaimed ∧
    (findByKey (claim accepting sampleApp .ok claimedSt).state.store
        "k0").map (fun si => si.applicationState) = some .CLAIMED := by
  exact ⟨rfl, rfl⟩

/-- Claim C6 (amended): no claim attempt that reports an error newly marks
the local view as `CLAIMED`: if `claim` returns any error and the target's
store entry ends in state `CLAIMED`, then it was already `CLAIMED` before
the call. -/
theorem claim_no_ghost_claims (wf : String → Bool) (req : SecurityInfo)
    (out : RemoteOutcome) (st : SecMgrState)
    (herr : ∃ e, (claim wf req out st).result = .error e)
    (hcl : (findByKey (claim wf req out st).state.store req.publicKey).map
        (fun si => si.applicationState) = some .CLAIMED) :
    (findByKey st.store req.publicKey).map (fun si => si.applicationState) =
      some .CLAIMED := by
  rcases hcs : claimStart wf req st with ⟨r, st1⟩
  cases r with
  | error e =>
    have hs : st1 = st := by
      have h := claimStart_error_state wf req st e (by rw [hcs])
      rw [hcs] at h
      exact h
    have hst : (claim wf req out st).state = st := by
      unfold claim
      rw [hcs]
      exact hs
    rw [hst] at hcl
    exact hcl
  | ok si0 =>
    obtain ⟨hfind, hkey, hmem, hst1, hne, hwf, hclm⟩ :=
      claimStart_ok wf req st si0 st1 hcs
    subst hst1
    have hout : out ≠ .ok := by
      intro h
      subst h
      obtain ⟨e, he⟩ := herr
      unfold claim at he
      rw [hcs] at he
      simp [claimFinish] at he
    have hss : (claim wf req out st).state.store =
        setKeyState st.store req.publicKey (finishTargetState out) := by
      unfold claim
      rw [hcs]
      show setKeyState st.store si0.publicKey (finishTargetState out) = _
      rw [hkey]
    rw [hss, findByKey_setKeyState, hfind] at hcl
    simp at hcl
    exact absurd hcl (finishTargetState_ne_claimed out hout)

/-- Concrete instantiation of `claim_no_ghost_claims`: a network failure
mid-provisioning leaves the sample target in `CLAIMABLE`, never newly
`CLAIMED`; the hypothesis chain is discharged at a state where the target
was claimed beforehand. -/
theorem claim_no_ghost_claims_witness :
    (findByKey claimedSt.store "k0").map (fun si => si.applicationState) =
      some .CLAIMED := by
  have h := claim_no_ghost_claims accepting sampleApp .ok claimedSt
    ⟨.AlreadyClaimed, rfl⟩ rfl
  exact h

/-- Claim C7: the `ClaimLease` is released on every exit path of `claim`
(success, timeout or error): if no lease for the target key was live
before the call, none is live after it, and a subsequent claim on the same
target can never fail with `ClaimInProgress` because of a stale lease. -/
theorem claim_lease_always_released (wf : String → Bool) (req : SecurityInfo)
    (out out2 : RemoteOutcome) (st : SecMgrState)
    (h : req.publicKey ∉ st.leases) :
    req.publicKey ∉ (claim wf req out st).state.leases ∧
    (claim wf req out2 (claim wf req out st).state).result ≠
      .error .ClaimInProgress := by
  have h1 : req.publicKey ∉ (claim wf req out st).state.leases := by
    rcases hcs : claimStart wf req st with ⟨r, st1⟩
    cases r with
    | error e =>
      have hs : st1 = st := by
        have hh := claimStart_error_state wf req st e (by rw [hcs])
        rw [hcs] at hh
        exact hh
      have hst : (claim wf req out st).state = st := by
        unfold claim
        rw [hcs]
        exact hs
      rw [hst]
      exact h
    | ok si0 =>
      obtain ⟨hfind, hkey, hmem, hst1, _⟩ := claimStart_ok wf req st si0 st1 hcs
      subst hst1
      have hls : (claim wf req out st).state.leases =
          (req.publicKey :: st.leases).erase req.publicKey := by
        unfold claim
        rw [hcs]
        show (req.publicKey :: st.leases).erase si0.publicKey = _
        rw [hkey]
      rw [hls, List.erase_cons_head]
      exact h
  exact ⟨h1, claim_not_inProgress wf req out2 _ h1⟩

/-- Concrete instantiation of `claim_lease_always_released`: after a
claim on the sample state (with a timeout outcome), the lease for `"k0"`
is gone and a retry is not blocked. -/
theorem claim_lease_always_released_witness :
    "k0" ∉ (claim accepting sampleApp (.timeout false) sampleSt).state.leases ∧
    (claim accepting sampleApp .ok
        (claim accepting sampleApp (.timeout false) sampleSt).state).result ≠
      .error .ClaimInProgress := by
  have h := claim_lease_always_released accepting sampleApp (.timeout false) .ok
    sampleSt (by decide)
  exact h

/-- Claim C8: every operation on the Security Info Store — a claim
acquisition or completion, `found`, `lost`, or a state-changed
advertisement — preserves the invariant that no endpoint (bus name) maps
to more than one `SecurityInfo` record. -/
theorem store_unique_endpoint_invariant (wf : String → Bool) (st : SecMgrState)
    (ev : MonitorEvent)
    (h : (st.store.map (fun si => si.busName)).Nodup) :
    ((step wf st ev).store.map (fun si => si.busName)).Nodup :=
  store_busNames_nodup_step wf st ev h

/-- Concrete instantiation of `store_unique_endpoint_invariant`: a
state-changed advertisement for a second endpoint keeps bus names
unique. -/
theorem store_unique_endpoint_invariant_witness :
    ((step accepting sampleSt
        (.stateChanged ⟨"bus1", "k1", .CLAIMABLE, 0, 0⟩)).store.map
      (fun si => si.busName)).Nodup :=
  store_unique_endpoint_invariant accepting sampleSt
    (.stateChanged ⟨"bus1", "k1", .CLAIMABLE, 0, 0⟩) (by decide)

end SecMgr

namespace JavaDefs

/-- Claim C9: `ArgDef` equality ignores the `type` field — two `ArgDef`s
are `equals` exactly when their names and directions agree, whatever their
types — and `hashCode` is computed from name and direction only, so
`equals`-equal values always have equal hash codes. -/
theorem argDef_equals_ignores_type (a b : ArgDef) :
    (a.equals b = true ↔ a.name = b.name ∧ a.direction = b.direction) ∧
    (∀ t t', ArgDef.equals { a with type := t } { b with type := t' } =
      a.equals b) ∧
    (∀ t, ArgDef.hashCode { a with type := t } = a.hashCode) ∧
    (a.equals b = true → a.hashCode = b.hashCode) := by
  refine ⟨?_, fun t t' => rfl, fun t => rfl, ?_⟩
  · simp [ArgDef.equals]
  · intro h
    obtain ⟨hn, hd⟩ : a.name = b.name ∧ a.direction = b.direction := by
      simpa [ArgDef.equals] using h
    unfold ArgDef.hashCode
    rw [hn, hd]

/-- Concrete instantiation of `argDef_equals_ignores_type`: two arg
definitions differing only in type are equal and hash equal. -/
theorem argDef_equals_ignores_type_witness :
    (ArgDef.equals ⟨"arg", "i", "in"⟩ ⟨"arg", "s", "in"⟩ = true) ∧
    ArgDef.hashCode ⟨"arg", "i", "in"⟩ = ArgDef.hashCode ⟨"arg", "s", "in"⟩ := by
  have h := argDef_equals_ignores_type ⟨"arg", "i", "in"⟩ ⟨"arg", "s", "in"⟩
  exact ⟨h.1.mpr ⟨rfl, rfl⟩, h.2.2.2 (h.1.mpr ⟨rfl, rfl⟩)⟩

end JavaDefs

namespace WinSock

/-- Claim C10: the bound check in `RecvWithFds` compares `recvdFds` with
itself and is dead on every input — the "Too many handles" branch is never
taken — so when the out-of-band count `n` exceeds the `maxFds` limit the
function still reads and writes all `n` descriptors into `fdList`. -/
theorem recvWithFds_limit_check_dead (smf : Nat) (env : RecvEnv)
    (maxFds n : Nat)
    (hm : maxFds ≠ 0)
    (hio : env.ioctlMarked = some false)
    (hoob : env.oobByte = some n)
    (hbig : n > min maxFds smf)
    (hlen : n ≤ env.fdReads.length)
    (hall : ∀ r ∈ env.fdReads, r.isSome) :
    (∀ (env2 : RecvEnv) (b : Bool) (m : Nat),
      (RecvWithFds smf env2 b m).2.2 = false) ∧
    (RecvWithFds smf env false maxFds).2.1.length = n := by
  constructor
  · intro env2 b m
    unfold RecvWithFds
    split
    · rfl
    split
    · rfl
    split
    · rfl
    split
    · split
      · rfl
      · rfl
    split
    · rfl
    split
    · rename_i hk
      exact absurd hk (Nat.lt_irrefl _)
    split
    · split
      · rfl
      · rfl
    · rfl
  · obtain ⟨hs, hl⟩ := readFdLoop_all_some n env.fdReads hlen hall
    rcases hrf : readFdLoop n env.fdReads with ⟨s, fds⟩
    rw [hrf] at hs hl
    have hs' : s = .ER_OK := hs
    have hl' : fds.length = n := hl
    subst hs'
    cases hfr2 : env.finalRecv with
    | none =>
      unfold RecvWithFds
      simp [hio, hoob, hm, hrf, hfr2, hl']
    | some k =>
      unfold RecvWithFds
      simp [hio, hoob, hm, hrf, hfr2, hl']

end WinSock

namespace WinSock

/-- Concrete instantiation of `recvWithFds_limit_check_dead`: an
out-of-band count of 3 against an effective limit of 1 still writes all
3 descriptors and never takes the "Too many handles" branch. -/
theorem recvWithFds_limit_check_dead_witness :
    (∀ (env2 : RecvEnv) (b : Bool) (m : Nat),
      (RecvWithFds 2 env2 b m).2.2 = false) ∧
    (RecvWithFds 2 ⟨some false, some 3, [some 11, some 12, some 13], some 0⟩
      false 1).2.1.length = 3 := by
  have h := recvWithFds_limit_check_dead 2
    ⟨some false, some 3, [some 11, some 12, some 13], some 0⟩ 1 3
    (by decide) rfl rfl (by decide) (by decide) (by decide)
  exact h

end WinSock
